import Mathlib

/-!
Shallow embedding of the `hilbert_curve` crate (src/lib.rs): iterative
Hilbert-curve conversions between a one-dimensional distance `d` and
two-dimensional grid coordinates `(x, y)` on an `n` by `n` grid.

`usize` values are modelled as `Nat`.  The places where the source relies on
wrapping semantics — `usize::wrapping_sub` inside `rotate`, and the `n - 1`
of the power-of-two assertion under release-mode unsigned subtraction — are
modelled by explicit arithmetic modulo `2 ^ 64`, matching 64-bit `usize`.
The `assert!` at the head of both public functions is modelled by returning
`Option`: `none` is the panic.
-/

namespace HilbertCurve

/-- The modulus of 64-bit `usize` arithmetic. -/
def W : Nat := 2 ^ 64

/-- Rust `a.wrapping_sub(b)` on 64-bit `usize`, as arithmetic modulo `W`. -/
def wsub (a b : Nat) : Nat := (a + (W - b % W)) % W

/-- The private helper `rotate` of src/lib.rs: when `ry == 0` it reflects
both coordinates through the sub-square (wrapping) if `rx == 1` and then
swaps them; otherwise it leaves the pair unchanged.  Returns the new
`(x, y)`. -/
def rotate (n x y rx ry : Nat) : Nat × Nat :=
  if ry = 0 then
    if rx = 1 then (wsub (wsub n 1) y, wsub (wsub n 1) x)
    else (y, x)
  else (x, y)

/-- The `while s < n` loop of `convert_1d_to_2d`.  The extra `0 < s` guard
only makes the recursion well-founded: the entry point starts the loop at
`s = 1` and `s` doubles each step, so the guard never fails on a reachable
state (with `s = 0 < n` the Rust loop would not terminate). -/
def d2xyLoop (n s t x y : Nat) : Nat × Nat :=
  if h : 0 < s ∧ s < n then
    have : n - s * 2 < n - s := by omega
    let rx := 1 &&& (t / 2)
    let ry := 1 &&& (t ^^^ rx)
    let p := rotate s x y rx ry
    d2xyLoop n (s * 2) (t / 4) (p.1 + s * rx) (p.2 + s * ry)
  else (x, y)
termination_by n - s

/-- The `while s > 0` loop of `convert_2d_to_1d`. -/
def xy2dLoop (s x y d : Nat) : Nat :=
  if h : 0 < s then
    have : s / 2 < s := by omega
    let rx := if 0 < (x &&& s) then 1 else 0
    let ry := if 0 < (y &&& s) then 1 else 0
    let p := rotate s x y rx ry
    xy2dLoop (s / 2) p.1 p.2 (d + s * s * ((3 * rx) ^^^ ry))
  else d
termination_by s

/-- The check of `assert!((n & (n - 1)) == 0)` at the head of both public
functions, with `n - 1` computed by 64-bit wrapping subtraction. -/
def pow2Assert (n : Nat) : Bool := (n &&& wsub n 1) == 0

/-- `pub fn convert_1d_to_2d(d: usize, n: usize) -> (usize, usize)`.
`none` models the panic of a failed assertion. -/
def convert_1d_to_2d (d n : Nat) : Option (Nat × Nat) :=
  if pow2Assert n then some (d2xyLoop n 1 d 0 0) else none

/-- `pub fn convert_2d_to_1d(x: usize, y: usize, n: usize) -> usize`.
`none` models the panic of a failed assertion. -/
def convert_2d_to_1d (x y n : Nat) : Option Nat :=
  if pow2Assert n then some (xy2dLoop (n / 2) x y 0) else none

/-- One iteration of the `convert_1d_to_2d` loop body at scale `s`, reading
the quadrant bits from `t` and updating the accumulated pair `p`. -/
def d2Step (s t : Nat) (p : Nat × Nat) : Nat × Nat :=
  let rx := 1 &&& (t / 2)
  let ry := 1 &&& (t ^^^ rx)
  let q := rotate s p.1 p.2 rx ry
  (q.1 + s * rx, q.2 + s * ry)

/-- The `convert_1d_to_2d` loop as structural recursion on the bit count `k`
(grid side `2 ^ k`), with the last iteration outermost: the loop body runs at
scales `1, 2, …, 2 ^ (k - 1)` and the step at scale `2 ^ j` reads
`t = d / 4 ^ j`. -/
def hilbertD2XY : Nat → Nat → Nat × Nat
  | 0, _ => (0, 0)
  | k + 1, d => d2Step (2 ^ k) (d / 4 ^ k) (hilbertD2XY k d)

/-- The `convert_1d_to_2d` loop with the first iteration outermost:
`d2xyAuxF k s t x y` runs `k` iterations starting at scale `s`.  Bridge
between `d2xyLoop` and `hilbertD2XY`. -/
def d2xyAuxF : Nat → Nat → Nat → Nat → Nat → Nat × Nat
  | 0, _, _, x, y => (x, y)
  | k + 1, s, t, x, y =>
    let p := d2Step s t (x, y)
    d2xyAuxF k (s * 2) (t / 4) p.1 p.2

/-- The `convert_2d_to_1d` loop as structural recursion on the bit count `k`:
`hilbertXY2D k x y` runs the loop at scales `2 ^ (k - 1), …, 2, 1` starting
from distance `0`. -/
def hilbertXY2D : Nat → Nat → Nat → Nat
  | 0, _, _ => 0
  | k + 1, x, y =>
    let s := 2 ^ k
    let rx := if 0 < (x &&& s) then 1 else 0
    let ry := if 0 < (y &&& s) then 1 else 0
    let p := rotate s x y rx ry
    4 ^ k * ((3 * rx) ^^^ ry) + hilbertXY2D k p.1 p.2

lemma W_pos : 0 < W := by norm_num [W]

lemma d2xyLoop_step {n s t x y : Nat} (hs : 0 < s) (hlt : s < n) :
    d2xyLoop n s t x y =
      d2xyLoop n (s * 2) (t / 4) (d2Step s t (x, y)).1 (d2Step s t (x, y)).2 := by
  rw [d2xyLoop]
  rw [dif_pos ⟨hs, hlt⟩]
  rfl

lemma hilbertD2XY_succ (k d : Nat) :
    hilbertD2XY (k + 1) d = d2Step (2 ^ k) (d / 4 ^ k) (hilbertD2XY k d) := rfl

lemma hilbertXY2D_succ (k x y : Nat) :
    hilbertXY2D (k + 1) x y =
      4 ^ k * ((3 * (if 0 < (x &&& 2 ^ k) then 1 else 0)) ^^^
        (if 0 < (y &&& 2 ^ k) then 1 else 0)) +
      hilbertXY2D k
        (rotate (2 ^ k) x y (if 0 < (x &&& 2 ^ k) then 1 else 0)
          (if 0 < (y &&& 2 ^ k) then 1 else 0)).1
        (rotate (2 ^ k) x y (if 0 < (x &&& 2 ^ k) then 1 else 0)
          (if 0 < (y &&& 2 ^ k) then 1 else 0)).2 := rfl

lemma d2xyLoop_done {n s t x y : Nat} (h : ¬(0 < s ∧ s < n)) :
    d2xyLoop n s t x y = (x, y) := by
  rw [d2xyLoop, dif_neg h]

lemma xy2dLoop_step {s x y d : Nat} (hs : 0 < s) :
    xy2dLoop s x y d =
      xy2dLoop (s / 2)
        (rotate s x y (if 0 < (x &&& s) then 1 else 0) (if 0 < (y &&& s) then 1 else 0)).1
        (rotate s x y (if 0 < (x &&& s) then 1 else 0) (if 0 < (y &&& s) then 1 else 0)).2
        (d + s * s * ((3 * (if 0 < (x &&& s) then 1 else 0)) ^^^
          (if 0 < (y &&& s) then 1 else 0))) := by
  rw [xy2dLoop, dif_pos hs]

lemma xy2dLoop_zero {x y d : Nat} : xy2dLoop 0 x y d = d := by
  rw [xy2dLoop]
  simp

lemma d2xyLoop_eq_auxF : ∀ (k s t x y : Nat), 0 < s →
    d2xyLoop (s * 2 ^ k) s t x y = d2xyAuxF k s t x y
  | 0, s, t, x, y, hs => by
    rw [d2xyLoop_done (by simp)]
    rfl
  | k + 1, s, t, x, y, hs => by
    have hlt : s < s * 2 ^ (k + 1) := by
      have h2 : (2:Nat) ≤ 2 ^ (k + 1) := by
        calc (2:Nat) = 2 ^ 1 := by norm_num
        _ ≤ 2 ^ (k + 1) := Nat.pow_le_pow_right (by norm_num) (by omega)
      exact (Nat.lt_mul_iff_one_lt_right hs).mpr (by omega)
    rw [d2xyLoop_step hs hlt]
    have harr : s * 2 ^ (k + 1) = (s * 2) * 2 ^ k := by ring
    rw [harr]
    rw [d2xyLoop_eq_auxF k (s * 2) (t / 4) _ _ (by omega)]
    rfl

lemma d2xyAuxF_last : ∀ (k s t x y : Nat),
    d2xyAuxF (k + 1) s t x y = d2Step (s * 2 ^ k) (t / 4 ^ k) (d2xyAuxF k s t x y)
  | 0, s, t, x, y => by
    simp [d2xyAuxF]
  | k + 1, s, t, x, y => by
    show d2xyAuxF (k + 1) (s * 2) (t / 4) _ _ = _
    rw [d2xyAuxF_last k (s * 2) (t / 4) _ _]
    have h1 : s * 2 * 2 ^ k = s * 2 ^ (k + 1) := by ring
    have h2 : t / 4 / 4 ^ k = t / 4 ^ (k + 1) := by
      rw [Nat.div_div_eq_div_mul, ← pow_succ']
    rw [h1, h2]
    rfl

lemma hilbertD2XY_eq_auxF : ∀ (k d : Nat), hilbertD2XY k d = d2xyAuxF k 1 d 0 0
  | 0, d => rfl
  | k + 1, d => by
    show d2Step (2 ^ k) (d / 4 ^ k) (hilbertD2XY k d) = _
    rw [hilbertD2XY_eq_auxF k d, d2xyAuxF_last k 1 d 0 0, one_mul]

lemma xy2dLoop_eq_hilbert : ∀ (k x y d : Nat),
    xy2dLoop (2 ^ k) x y d = d + hilbertXY2D (k + 1) x y
  | 0, x, y, d => by
    rw [pow_zero, xy2dLoop_step (by norm_num)]
    norm_num [xy2dLoop_zero, hilbertXY2D]
  | k + 1, x, y, d => by
    rw [xy2dLoop_step (Nat.pow_pos (by norm_num))]
    have hdiv : 2 ^ (k + 1) / 2 = 2 ^ k := by
      rw [pow_succ, Nat.mul_div_cancel]
      norm_num
    rw [hdiv, xy2dLoop_eq_hilbert k _ _ _]
    conv_rhs => rw [hilbertXY2D_succ (k + 1) x y]
    have hss : 2 ^ (k + 1) * 2 ^ (k + 1) = 4 ^ (k + 1) := by
      rw [← pow_add]
      have h4 : (4:Nat) = 2 ^ 2 := by norm_num
      rw [h4, ← pow_mul]
      congr 1
      omega
    rw [hss]
    ring

lemma rotate_id {n x y rx ry : Nat} (h : ry ≠ 0) : rotate n x y rx ry = (x, y) := by
  unfold rotate
  rw [if_neg h]

lemma rotate_swap {n x y rx : Nat} (h : rx ≠ 1) : rotate n x y rx 0 = (y, x) := by
  unfold rotate
  rw [if_pos rfl, if_neg h]

lemma rotate_reflect (n x y : Nat) :
    rotate n x y 1 0 = (wsub (wsub n 1) y, wsub (wsub n 1) x) := by
  unfold rotate
  rw [if_pos rfl, if_pos rfl]

lemma two_pow_le_W {k : Nat} (hk : k ≤ 64) : 2 ^ k ≤ W := by
  unfold W
  exact Nat.pow_le_pow_right (by norm_num) hk

lemma two_pow_dvd_W {j : Nat} (hj : j ≤ 64) : 2 ^ j ∣ W := by
  unfold W
  exact pow_dvd_pow 2 hj

lemma wsub_lt_W (a b : Nat) : wsub a b < W := Nat.mod_lt _ W_pos

lemma wsub_eq {a b : Nat} (hb : b ≤ a) (ha : a ≤ W) (h : a - b < W) : wsub a b = a - b := by
  unfold wsub
  by_cases hbW : b < W
  · rw [Nat.mod_eq_of_lt hbW]
    have harith : a + (W - b) = (a - b) + W := by omega
    rw [harith, Nat.add_mod_right, Nat.mod_eq_of_lt h]
  · have hbW2 : b = W := by omega
    have haW : a = W := by omega
    subst hbW2
    subst haW
    rw [Nat.mod_self, Nat.sub_zero, Nat.add_mod_right, Nat.mod_self, Nat.sub_self]

lemma wsub_one {n : Nat} (h0 : 0 < n) (hn : n ≤ W) : wsub n 1 = n - 1 :=
  wsub_eq h0 hn (by have := W_pos; omega)

lemma wsub_small {a b : Nat} (hb : b ≤ a) (ha : a < W) : wsub a b = a - b :=
  wsub_eq hb (le_of_lt ha) (by omega)

lemma wsub_reflect_hi {k c : Nat} (hk : k ≤ 64) (hc : c < 2 ^ k) :
    wsub (2 ^ k - 1) (2 ^ k + c) = W - 1 - c := by
  have hW := two_pow_le_W hk
  have hWpos := W_pos
  unfold wsub
  by_cases hlo : 2 ^ k + c < W
  · rw [Nat.mod_eq_of_lt hlo]
    have harith : 2 ^ k - 1 + (W - (2 ^ k + c)) = W - 1 - c := by omega
    rw [harith, Nat.mod_eq_of_lt (by omega)]
  · have hk64 : k = 64 := by
      have h1 : W < 2 ^ (k + 1) := by
        have hp : 2 ^ (k + 1) = 2 ^ k + 2 ^ k := by rw [pow_succ]; ring
        omega
      by_contra hcon
      have hle : k + 1 ≤ 64 := by omega
      have := Nat.pow_le_pow_right (show 1 ≤ 2 by norm_num) hle
      have hWdef : W = 2 ^ 64 := rfl
      omega
    subst hk64
    have h2k : (2:Nat) ^ 64 = W := rfl
    rw [h2k]
    have hcm : (W + c) % W = c := by
      rw [Nat.add_comm, Nat.add_mod_right, Nat.mod_eq_of_lt (by omega)]
    rw [hcm]
    have harith : W - 1 + (W - c) = (W - 1 - c) + W := by omega
    rw [harith, Nat.add_mod_right, Nat.mod_eq_of_lt (by omega)]

lemma one_land (m : Nat) : 1 &&& m = m % 2 := by
  rw [Nat.and_comm, Nat.and_one_is_mod]

lemma xor_mod_two (a b : Nat) : (a ^^^ b) % 2 = (a % 2 + b % 2) % 2 := by
  have h : (a ^^^ b) &&& 1 = (a &&& 1) ^^^ (b &&& 1) := Nat.and_xor_distrib_right
  rw [Nat.and_one_is_mod, Nat.and_one_is_mod, Nat.and_one_is_mod] at h
  rw [h]
  rcases Nat.mod_two_eq_zero_or_one a with h1 | h1 <;>
    rcases Nat.mod_two_eq_zero_or_one b with h2 | h2 <;> rw [h1, h2] <;> rfl

lemma mask_bit (x k : Nat) : (if 0 < (x &&& 2 ^ k) then 1 else 0) = x / 2 ^ k % 2 := by
  rw [Nat.and_two_pow]
  cases h : x.testBit k
  · rw [Nat.testBit_to_div_mod] at h
    simp only [decide_eq_false_iff_not] at h
    simp only [Bool.toNat_false, Nat.zero_mul, Nat.lt_irrefl, if_false]
    omega
  · rw [Nat.testBit_to_div_mod] at h
    simp only [decide_eq_true_eq] at h
    have hp : 0 < 2 ^ k := Nat.pow_pos (by norm_num)
    simp only [Bool.toNat_true, Nat.one_mul, if_pos hp]
    omega

lemma d2Step_eq (s t : Nat) (p : Nat × Nat) :
    d2Step s t p =
      ((rotate s p.1 p.2 (t / 2 % 2) ((t % 2 + t / 2 % 2) % 2)).1 + s * (t / 2 % 2),
       (rotate s p.1 p.2 (t / 2 % 2) ((t % 2 + t / 2 % 2) % 2)).2 +
         s * ((t % 2 + t / 2 % 2) % 2)) := by
  have hrx : 1 &&& (t / 2) = t / 2 % 2 := one_land _
  have hry : 1 &&& (t ^^^ (t / 2 % 2)) = (t % 2 + t / 2 % 2) % 2 := by
    rw [one_land, xor_mod_two]
    omega
  simp only [d2Step, hrx, hry]

lemma hilbertXY2D_succ_eq (k x y : Nat) :
    hilbertXY2D (k + 1) x y =
      4 ^ k * ((3 * (x / 2 ^ k % 2)) ^^^ (y / 2 ^ k % 2)) +
      hilbertXY2D k
        (rotate (2 ^ k) x y (x / 2 ^ k % 2) (y / 2 ^ k % 2)).1
        (rotate (2 ^ k) x y (x / 2 ^ k % 2) (y / 2 ^ k % 2)).2 := by
  rw [hilbertXY2D_succ, mask_bit, mask_bit]

lemma rotate_lt {k : Nat} (hk : k ≤ 64) {x y : Nat} (hx : x < 2 ^ k) (hy : y < 2 ^ k)
    (rx ry : Nat) :
    (rotate (2 ^ k) x y rx ry).1 < 2 ^ k ∧ (rotate (2 ^ k) x y rx ry).2 < 2 ^ k := by
  have hW := two_pow_le_W hk
  have hp : (0:Nat) < 2 ^ k := Nat.pow_pos (by norm_num)
  by_cases hry : ry = 0
  · subst hry
    by_cases hrx : rx = 1
    · subst hrx
      rw [rotate_reflect]
      rw [wsub_one hp hW, wsub_small (by omega) (by omega), wsub_small (by omega) (by omega)]
      dsimp only
      constructor <;> omega
    · rw [rotate_swap hrx]
      exact ⟨hy, hx⟩
  · rw [rotate_id hry]
    exact ⟨hx, hy⟩

lemma hilbertD2XY_lt : ∀ k, k ≤ 64 → ∀ d,
    (hilbertD2XY k d).1 < 2 ^ k ∧ (hilbertD2XY k d).2 < 2 ^ k := by
  intro k
  induction k with
  | zero => intro _ d; constructor <;> norm_num [hilbertD2XY]
  | succ k ih =>
    intro hk d
    have hk64 : k ≤ 64 := by omega
    obtain ⟨h1, h2⟩ := ih hk64 d
    rw [hilbertD2XY_succ, d2Step_eq]
    set t := d / 4 ^ k with ht
    obtain ⟨hr1, hr2⟩ := rotate_lt hk64 h1 h2 (t / 2 % 2) ((t % 2 + t / 2 % 2) % 2)
    have hb1 : t / 2 % 2 ≤ 1 := by omega
    have hb2 : (t % 2 + t / 2 % 2) % 2 ≤ 1 := by omega
    have hpow : (2:Nat) ^ (k + 1) = 2 ^ k + 2 ^ k := by rw [pow_succ]; ring
    constructor
    · simp only []
      have : 2 ^ k * (t / 2 % 2) ≤ 2 ^ k := by
        rcases Nat.le_one_iff_eq_zero_or_eq_one.mp hb1 with h | h <;> rw [h] <;> omega
      omega
    · simp only []
      have : 2 ^ k * ((t % 2 + t / 2 % 2) % 2) ≤ 2 ^ k := by
        rcases Nat.le_one_iff_eq_zero_or_eq_one.mp hb2 with h | h <;> rw [h] <;> omega
      omega

lemma wsub_mod_congr {j : Nat} (hj : j ≤ 64) (a : Nat) {b b' : Nat}
    (hb : b % 2 ^ j = b' % 2 ^ j) : wsub a b % 2 ^ j = wsub a b' % 2 ^ j := by
  have hdvd : 2 ^ j ∣ W := two_pow_dvd_W hj
  unfold wsub
  rw [Nat.mod_mod_of_dvd _ hdvd, Nat.mod_mod_of_dvd _ hdvd]
  have hbW : b % W % 2 ^ j = b' % W % 2 ^ j := by
    rw [Nat.mod_mod_of_dvd _ hdvd, Nat.mod_mod_of_dvd _ hdvd, hb]
  have hle : b % W ≤ W := le_of_lt (Nat.mod_lt _ W_pos)
  have hle' : b' % W ≤ W := le_of_lt (Nat.mod_lt _ W_pos)
  have hmod : (W - b % W) + b % W ≡ (W - b' % W) + b' % W [MOD 2 ^ j] := by
    rw [Nat.sub_add_cancel hle, Nat.sub_add_cancel hle']
  have hcan : W - b % W ≡ W - b' % W [MOD 2 ^ j] :=
    Nat.ModEq.add_right_cancel (show b % W ≡ b' % W [MOD 2 ^ j] from hbW) hmod
  rw [Nat.add_mod, hcan, ← Nat.add_mod]

lemma rotate_congr {k : Nat} (hk : k ≤ 64) {x y x2 y2 : Nat} (rx ry : Nat)
    (hx : x % 2 ^ k = x2 % 2 ^ k) (hy : y % 2 ^ k = y2 % 2 ^ k) :
    (rotate (2 ^ k) x y rx ry).1 % 2 ^ k = (rotate (2 ^ k) x2 y2 rx ry).1 % 2 ^ k ∧
    (rotate (2 ^ k) x y rx ry).2 % 2 ^ k = (rotate (2 ^ k) x2 y2 rx ry).2 % 2 ^ k := by
  by_cases hry : ry = 0
  · subst hry
    by_cases hrx : rx = 1
    · subst hrx
      simp only [rotate_reflect]
      exact ⟨wsub_mod_congr hk _ hy, wsub_mod_congr hk _ hx⟩
    · simp only [rotate_swap hrx]
      exact ⟨hy, hx⟩
  · simp only [rotate_id hry]
    exact ⟨hx, hy⟩

lemma hilbertXY2D_congr : ∀ k, k ≤ 64 → ∀ x y x2 y2 : Nat,
    x % 2 ^ k = x2 % 2 ^ k → y % 2 ^ k = y2 % 2 ^ k →
    hilbertXY2D k x y = hilbertXY2D k x2 y2 := by
  intro k
  induction k with
  | zero => intro _ x y x2 y2 _ _; rfl
  | succ k ih =>
    intro hk x y x2 y2 hx hy
    have hk64 : k ≤ 64 := by omega
    have hdvd : (2:Nat) ^ k ∣ 2 ^ (k + 1) := pow_dvd_pow 2 (by omega)
    have hxk : x % 2 ^ k = x2 % 2 ^ k := by
      rw [← Nat.mod_mod_of_dvd x hdvd, ← Nat.mod_mod_of_dvd x2 hdvd, hx]
    have hyk : y % 2 ^ k = y2 % 2 ^ k := by
      rw [← Nat.mod_mod_of_dvd y hdvd, ← Nat.mod_mod_of_dvd y2 hdvd, hy]
    have hxbit : x / 2 ^ k % 2 = x2 / 2 ^ k % 2 := by
      have e1 : x % 2 ^ (k + 1) = x % 2 ^ k + 2 ^ k * (x / 2 ^ k % 2) := by
        rw [pow_succ]; exact Nat.mod_mul
      have e2 : x2 % 2 ^ (k + 1) = x2 % 2 ^ k + 2 ^ k * (x2 / 2 ^ k % 2) := by
        rw [pow_succ]; exact Nat.mod_mul
      have hp : (0:Nat) < 2 ^ k := Nat.pow_pos (by norm_num)
      have b1 : x / 2 ^ k % 2 = 0 ∨ x / 2 ^ k % 2 = 1 := by omega
      have b2 : x2 / 2 ^ k % 2 = 0 ∨ x2 / 2 ^ k % 2 = 1 := by omega
      rcases b1 with b1 | b1 <;> rcases b2 with b2 | b2 <;> rw [b1, b2] <;>
        rw [b1] at e1 <;> rw [b2] at e2 <;> omega
    have hybit : y / 2 ^ k % 2 = y2 / 2 ^ k % 2 := by
      have e1 : y % 2 ^ (k + 1) = y % 2 ^ k + 2 ^ k * (y / 2 ^ k % 2) := by
        rw [pow_succ]; exact Nat.mod_mul
      have e2 : y2 % 2 ^ (k + 1) = y2 % 2 ^ k + 2 ^ k * (y2 / 2 ^ k % 2) := by
        rw [pow_succ]; exact Nat.mod_mul
      have hp : (0:Nat) < 2 ^ k := Nat.pow_pos (by norm_num)
      have b1 : y / 2 ^ k % 2 = 0 ∨ y / 2 ^ k % 2 = 1 := by omega
      have b2 : y2 / 2 ^ k % 2 = 0 ∨ y2 / 2 ^ k % 2 = 1 := by omega
      rcases b1 with b1 | b1 <;> rcases b2 with b2 | b2 <;> rw [b1, b2] <;>
        rw [b1] at e1 <;> rw [b2] at e2 <;> omega
    rw [hilbertXY2D_succ_eq, hilbertXY2D_succ_eq, hxbit, hybit]
    obtain ⟨hc1, hc2⟩ :=
      rotate_congr hk64 (x2 / 2 ^ k % 2) (y2 / 2 ^ k % 2) hxk hyk
    rw [ih hk64 _ _ _ _ hc1 hc2]

lemma hilbertD2XY_succ_q0 {k d : Nat} (hq : d / 4 ^ k % 4 = 0) :
    hilbertD2XY (k + 1) d = ((hilbertD2XY k d).2, (hilbertD2XY k d).1) := by
  rw [hilbertD2XY_succ, d2Step_eq]
  have h1 : d / 4 ^ k / 2 % 2 = 0 := by omega
  have h2 : (d / 4 ^ k % 2 + d / 4 ^ k / 2 % 2) % 2 = 0 := by omega
  rw [h2, h1, rotate_swap (by norm_num)]
  dsimp only
  rw [Nat.mul_zero, Nat.add_zero, Nat.add_zero]

lemma hilbertD2XY_succ_q1 {k d : Nat} (hq : d / 4 ^ k % 4 = 1) :
    hilbertD2XY (k + 1) d = ((hilbertD2XY k d).1, (hilbertD2XY k d).2 + 2 ^ k) := by
  rw [hilbertD2XY_succ, d2Step_eq]
  have h1 : d / 4 ^ k / 2 % 2 = 0 := by omega
  have h2 : (d / 4 ^ k % 2 + d / 4 ^ k / 2 % 2) % 2 = 1 := by omega
  rw [h2, h1, rotate_id (by norm_num)]
  dsimp only
  rw [Nat.mul_zero, Nat.add_zero, Nat.mul_one]

lemma hilbertD2XY_succ_q2 {k d : Nat} (hq : d / 4 ^ k % 4 = 2) :
    hilbertD2XY (k + 1) d = ((hilbertD2XY k d).1 + 2 ^ k, (hilbertD2XY k d).2 + 2 ^ k) := by
  rw [hilbertD2XY_succ, d2Step_eq]
  have h1 : d / 4 ^ k / 2 % 2 = 1 := by omega
  have h2 : (d / 4 ^ k % 2 + d / 4 ^ k / 2 % 2) % 2 = 1 := by omega
  rw [h2, h1, rotate_id (by norm_num)]
  dsimp only
  rw [Nat.mul_one]

lemma hilbertD2XY_succ_q3 {k d : Nat} (hk : k ≤ 64) (hq : d / 4 ^ k % 4 = 3) :
    hilbertD2XY (k + 1) d =
      (2 ^ k - 1 - (hilbertD2XY k d).2 + 2 ^ k, 2 ^ k - 1 - (hilbertD2XY k d).1) := by
  obtain ⟨hp1, hp2⟩ := hilbertD2XY_lt k hk d
  have hW := two_pow_le_W hk
  have hp : (0:Nat) < 2 ^ k := Nat.pow_pos (by norm_num)
  rw [hilbertD2XY_succ, d2Step_eq]
  have h1 : d / 4 ^ k / 2 % 2 = 1 := by omega
  have h2 : (d / 4 ^ k % 2 + d / 4 ^ k / 2 % 2) % 2 = 0 := by omega
  rw [h2, h1, rotate_reflect, wsub_one hp hW,
    wsub_small (by omega) (by omega), wsub_small (by omega) (by omega)]
  dsimp only
  rw [Nat.mul_one, Nat.mul_zero, Nat.add_zero]

lemma div_bit0 {a e : Nat} (h : a < e) : a / e % 2 = 0 := by
  rw [Nat.div_eq_of_lt h]

lemma div_bit1 {a e : Nat} (h : a < e) (he : 0 < e) : (a + e) / e % 2 = 1 := by
  rw [Nat.add_div_right _ he, Nat.div_eq_of_lt h]

lemma mod_four_pow_succ (d k : Nat) :
    d % 4 ^ (k + 1) = d % 4 ^ k + 4 ^ k * (d / 4 ^ k % 4) := by
  rw [pow_succ]
  exact Nat.mod_mul

theorem hilbert_roundtrip : ∀ k, k ≤ 64 → ∀ d,
    hilbertXY2D k (hilbertD2XY k d).1 (hilbertD2XY k d).2 = d % 4 ^ k := by
  intro k
  induction k with
  | zero => intro _ d; rw [Nat.pow_zero, Nat.mod_one]; rfl
  | succ k ih =>
    intro hk d
    have hk64 : k ≤ 64 := by omega
    obtain ⟨hp1, hp2⟩ := hilbertD2XY_lt k hk64 d
    have hp : (0:Nat) < 2 ^ k := Nat.pow_pos (by norm_num)
    have hW := two_pow_le_W hk64
    have hdec := mod_four_pow_succ d k
    have hq4 : d / 4 ^ k % 4 = 0 ∨ d / 4 ^ k % 4 = 1 ∨ d / 4 ^ k % 4 = 2 ∨
        d / 4 ^ k % 4 = 3 := by omega
    rcases hq4 with hq | hq | hq | hq
    · rw [hq] at hdec
      rw [hilbertD2XY_succ_q0 hq]
      dsimp only
      rw [hilbertXY2D_succ_eq, div_bit0 hp2, div_bit0 hp1, rotate_swap (by norm_num)]
      dsimp only
      rw [ih hk64 d]
      have hc : (3 * 0) ^^^ 0 = 0 := by decide
      rw [hc]
      omega
    · rw [hq] at hdec
      rw [hilbertD2XY_succ_q1 hq]
      dsimp only
      rw [hilbertXY2D_succ_eq, div_bit0 hp1, div_bit1 hp2 hp, rotate_id (by norm_num)]
      dsimp only
      have hcong : hilbertXY2D k (hilbertD2XY k d).1 ((hilbertD2XY k d).2 + 2 ^ k) =
          hilbertXY2D k (hilbertD2XY k d).1 (hilbertD2XY k d).2 := by
        exact hilbertXY2D_congr k hk64 _ _ _ _ rfl (Nat.add_mod_right _ _)
      rw [hcong, ih hk64 d]
      have hc : (3 * 0) ^^^ 1 = 1 := by decide
      rw [hc]
      omega
    · rw [hq] at hdec
      rw [hilbertD2XY_succ_q2 hq]
      dsimp only
      rw [hilbertXY2D_succ_eq, div_bit1 hp1 hp, div_bit1 hp2 hp, rotate_id (by norm_num)]
      dsimp only
      have hcong : hilbertXY2D k ((hilbertD2XY k d).1 + 2 ^ k) ((hilbertD2XY k d).2 + 2 ^ k) =
          hilbertXY2D k (hilbertD2XY k d).1 (hilbertD2XY k d).2 := by
        exact hilbertXY2D_congr k hk64 _ _ _ _ (Nat.add_mod_right _ _) (Nat.add_mod_right _ _)
      rw [hcong, ih hk64 d]
      have hc : (3 * 1) ^^^ 1 = 2 := by decide
      rw [hc]
      omega
    · rw [hq] at hdec
      rw [hilbertD2XY_succ_q3 hk64 hq]
      dsimp only
      have hcx : 2 ^ k - 1 - (hilbertD2XY k d).2 < 2 ^ k := by omega
      have hcy : 2 ^ k - 1 - (hilbertD2XY k d).1 < 2 ^ k := by omega
      rw [hilbertXY2D_succ_eq, div_bit1 hcx hp, div_bit0 hcy, rotate_reflect,
        wsub_one hp hW, wsub_small (by omega) (by omega)]
      have hswap : 2 ^ k - 1 - (hilbertD2XY k d).2 + 2 ^ k =
          2 ^ k + (2 ^ k - 1 - (hilbertD2XY k d).2) := by omega
      rw [hswap, wsub_reflect_hi hk64 hcx]
      dsimp only
      have hy1 : 2 ^ k - 1 - (2 ^ k - 1 - (hilbertD2XY k d).1) = (hilbertD2XY k d).1 := by
        omega
      rw [hy1]
      have hWpos := W_pos
      have hdvdW := two_pow_dvd_W hk64
      have hdvd2 : (2:Nat) ^ k ∣ W - 2 ^ k := Nat.dvd_sub' hdvdW dvd_rfl
      have he : W - 1 - (2 ^ k - 1 - (hilbertD2XY k d).2) = (W - 2 ^ k) + (hilbertD2XY k d).2 := by
        omega
      have hcong : hilbertXY2D k (hilbertD2XY k d).1
          (W - 1 - (2 ^ k - 1 - (hilbertD2XY k d).2)) =
          hilbertXY2D k (hilbertD2XY k d).1 (hilbertD2XY k d).2 := by
        apply hilbertXY2D_congr k hk64 _ _ _ _ rfl
        obtain ⟨c, hcdef⟩ := hdvd2
        have h0 : (W - 2 ^ k) % 2 ^ k = 0 := by rw [hcdef, Nat.mul_mod_right]
        rw [he, Nat.add_mod, h0, Nat.zero_add, Nat.mod_mod_of_dvd _ dvd_rfl]
      rw [hcong, ih hk64 d]
      have hc : (3 * 1) ^^^ 0 = 3 := by decide
      rw [hc]
      omega

lemma hilbertXY2D_lt : ∀ k x y, hilbertXY2D k x y < 4 ^ k := by
  intro k
  induction k with
  | zero => intro x y; norm_num [hilbertXY2D]
  | succ k ih =>
    intro x y
    rw [hilbertXY2D_succ_eq]
    have hrec := ih (rotate (2 ^ k) x y (x / 2 ^ k % 2) (y / 2 ^ k % 2)).1
      (rotate (2 ^ k) x y (x / 2 ^ k % 2) (y / 2 ^ k % 2)).2
    have hc : (3 * (x / 2 ^ k % 2)) ^^^ (y / 2 ^ k % 2) ≤ 3 := by
      have hbx : x / 2 ^ k % 2 = 0 ∨ x / 2 ^ k % 2 = 1 := by omega
      have hby : y / 2 ^ k % 2 = 0 ∨ y / 2 ^ k % 2 = 1 := by omega
      rcases hbx with h | h <;> rcases hby with h2 | h2 <;> rw [h, h2] <;> decide
    have hpow : (4:Nat) ^ (k + 1) = 4 ^ k * 4 := pow_succ 4 k
    have hmul : 4 ^ k * ((3 * (x / 2 ^ k % 2)) ^^^ (y / 2 ^ k % 2)) ≤ 4 ^ k * 3 :=
      Nat.mul_le_mul_left _ hc
    omega

lemma d2Step_mod_four (s t : Nat) (p : Nat × Nat) : d2Step s (t % 4) p = d2Step s t p := by
  rw [d2Step_eq, d2Step_eq]
  have e1 : t % 4 % 2 = t % 2 := by omega
  have e2 : t % 4 / 2 % 2 = t / 2 % 2 := by omega
  rw [e1, e2]

lemma hilbertD2XY_mod : ∀ k d, hilbertD2XY k d = hilbertD2XY k (d % 4 ^ k) := by
  intro k
  induction k with
  | zero => intro d; rfl
  | succ k ih =>
    intro d
    rw [hilbertD2XY_succ, hilbertD2XY_succ]
    have hdvd : (4:Nat) ^ k ∣ 4 ^ (k + 1) := pow_dvd_pow 4 (by omega)
    have hinner : hilbertD2XY k (d % 4 ^ (k + 1)) = hilbertD2XY k d := by
      rw [ih (d % 4 ^ (k + 1)), Nat.mod_mod_of_dvd d hdvd, ← ih d]
    have ht : d % 4 ^ (k + 1) / 4 ^ k = d / 4 ^ k % 4 := by
      rw [pow_succ]
      exact Nat.mod_mul_right_div_self d (4 ^ k) 4
    rw [hinner, ht, d2Step_mod_four]

lemma hilbertD2XY_zero : ∀ k, hilbertD2XY k 0 = (0, 0) := by
  intro k
  induction k with
  | zero => rfl
  | succ k ih =>
    have hq : (0:Nat) / 4 ^ k % 4 = 0 := by rw [Nat.zero_div]
    rw [hilbertD2XY_succ_q0 hq, ih]

lemma hilbertXY2D_zero : ∀ k, hilbertXY2D k 0 0 = 0 := by
  intro k
  induction k with
  | zero => rfl
  | succ k ih =>
    rw [hilbertXY2D_succ_eq, Nat.zero_div]
    have h0 : (0:Nat) % 2 = 0 := rfl
    rw [h0, rotate_swap (by norm_num)]
    dsimp only
    rw [ih]
    have hc : (3 * 0) ^^^ 0 = 0 := by decide
    rw [hc, Nat.mul_zero]

lemma hilbertD2XY_last : ∀ k, k ≤ 64 → hilbertD2XY k (4 ^ k - 1) = (2 ^ k - 1, 0) := by
  intro k
  induction k with
  | zero => intro _; rfl
  | succ k ih =>
    intro hk
    have hk64 : k ≤ 64 := by omega
    have hp4 : (0:Nat) < 4 ^ k := Nat.pow_pos (by norm_num)
    have hps : (4:Nat) ^ (k + 1) = 4 ^ k * 4 := pow_succ 4 k
    have he : 4 ^ (k + 1) - 1 = (4 ^ k - 1) + 4 ^ k * 3 := by omega
    have hq : (4 ^ (k + 1) - 1) / 4 ^ k % 4 = 3 := by
      rw [he, Nat.add_mul_div_left _ _ hp4, Nat.div_eq_of_lt (by omega)]
    rw [hilbertD2XY_succ_q3 hk64 hq]
    have hinner : hilbertD2XY k (4 ^ (k + 1) - 1) = (2 ^ k - 1, 0) := by
      rw [hilbertD2XY_mod, he, Nat.add_mul_mod_self_left,
        Nat.mod_eq_of_lt (by omega), ih hk64]
    rw [hinner]
    have hp2 : (0:Nat) < 2 ^ k := Nat.pow_pos (by norm_num)
    have hp2s : (2:Nat) ^ (k + 1) = 2 ^ k * 2 := pow_succ 2 k
    rw [Prod.mk.injEq]
    dsimp only
    constructor <;> omega

lemma pow2Assert_two_pow (k : Nat) : pow2Assert (2 ^ k) = true := by
  unfold pow2Assert
  rw [beq_iff_eq]
  have hp : (0:Nat) < 2 ^ k := Nat.pow_pos (by norm_num)
  have hm : wsub (2 ^ k) 1 < 2 ^ k := by
    by_cases hk : k ≤ 64
    · rw [wsub_one hp (two_pow_le_W hk)]
      omega
    · have h1 : W ≤ 2 ^ k := Nat.pow_le_pow_right (by norm_num) (by omega)
      have h2 := wsub_lt_W (2 ^ k) 1
      omega
  rw [Nat.and_comm, Nat.and_two_pow]
  have hbit : (wsub (2 ^ k) 1).testBit k = false := by
    rw [Nat.testBit_to_div_mod, Nat.div_eq_of_lt hm]
    norm_num
  rw [hbit]
  norm_num

lemma convert_1d_eq (k d : Nat) : convert_1d_to_2d d (2 ^ k) = some (hilbertD2XY k d) := by
  unfold convert_1d_to_2d
  rw [pow2Assert_two_pow, if_pos rfl, hilbertD2XY_eq_auxF]
  have h1 : (2:Nat) ^ k = 1 * 2 ^ k := (Nat.one_mul _).symm
  rw [h1, d2xyLoop_eq_auxF k 1 d 0 0 (by norm_num)]

lemma convert_2d_eq (k x y : Nat) : convert_2d_to_1d x y (2 ^ k) = some (hilbertXY2D k x y) := by
  unfold convert_2d_to_1d
  rw [pow2Assert_two_pow, if_pos rfl]
  cases k with
  | zero =>
    rw [show (2:Nat) ^ 0 / 2 = 0 from rfl, xy2dLoop_zero]
    rfl
  | succ k =>
    have hdiv : 2 ^ (k + 1) / 2 = 2 ^ k := by
      rw [pow_succ, Nat.mul_div_cancel _ (show (0:Nat) < 2 by norm_num)]
    rw [hdiv, xy2dLoop_eq_hilbert k x y 0, Nat.zero_add]

/-- Truncated-subtraction Manhattan distance between two grid cells. -/
def manhattan (p q : Nat × Nat) : Nat :=
  (p.1 - q.1) + (q.1 - p.1) + ((p.2 - q.2) + (q.2 - p.2))

theorem hilbert_locality : ∀ k, k ≤ 64 → ∀ d, d + 1 < 4 ^ k →
    manhattan (hilbertD2XY k d) (hilbertD2XY k (d + 1)) = 1 := by
  intro k
  induction k with
  | zero => intro _ d hd; norm_num at hd
  | succ k ih =>
    intro hk d hd
    have hk64 : k ≤ 64 := by omega
    have hp4 : (0:Nat) < 4 ^ k := Nat.pow_pos (by norm_num)
    have hp2 : (0:Nat) < 2 ^ k := Nat.pow_pos (by norm_num)
    have hps : (4:Nat) ^ (k + 1) = 4 ^ k * 4 := pow_succ 4 k
    have hdm := Nat.div_add_mod d (4 ^ k)
    have hrlt : d % 4 ^ k < 4 ^ k := Nat.mod_lt _ hp4
    have hql : d / 4 ^ k < 4 := by
      rw [Nat.div_lt_iff_lt_mul hp4]
      omega
    have hcase : d / 4 ^ k = 0 ∨ d / 4 ^ k = 1 ∨ d / 4 ^ k = 2 ∨ d / 4 ^ k = 3 := by
      revert hql
      generalize d / 4 ^ k = q1
      intro hql
      omega
    by_cases hr : d % 4 ^ k = 4 ^ k - 1
    · have hinner0 : hilbertD2XY k d = (2 ^ k - 1, 0) := by
        rw [hilbertD2XY_mod, hr, hilbertD2XY_last k hk64]
      rcases hcase with hq1 | hq1 | hq1 | hq1
      · rw [hq1] at hdm
        have he : d + 1 = 4 ^ k * 1 := by omega
        have hdiv1 : (d + 1) / 4 ^ k = 1 := by
          rw [he, Nat.mul_div_cancel_left _ hp4]
        have hmod1 : (d + 1) % 4 ^ k = 0 := by
          rw [he, Nat.mul_mod_right]
        have hinner1 : hilbertD2XY k (d + 1) = (0, 0) := by
          rw [hilbertD2XY_mod, hmod1, hilbertD2XY_zero]
        have hq_d : d / 4 ^ k % 4 = 0 := by rw [hq1]
        have hq_d1 : (d + 1) / 4 ^ k % 4 = 1 := by rw [hdiv1]
        rw [hilbertD2XY_succ_q0 hq_d, hilbertD2XY_succ_q1 hq_d1, hinner0, hinner1]
        simp only [manhattan]
        omega
      · rw [hq1] at hdm
        have he : d + 1 = 4 ^ k * 2 := by omega
        have hdiv1 : (d + 1) / 4 ^ k = 2 := by
          rw [he, Nat.mul_div_cancel_left _ hp4]
        have hmod1 : (d + 1) % 4 ^ k = 0 := by
          rw [he, Nat.mul_mod_right]
        have hinner1 : hilbertD2XY k (d + 1) = (0, 0) := by
          rw [hilbertD2XY_mod, hmod1, hilbertD2XY_zero]
        have hq_d : d / 4 ^ k % 4 = 1 := by rw [hq1]
        have hq_d1 : (d + 1) / 4 ^ k % 4 = 2 := by rw [hdiv1]
        rw [hilbertD2XY_succ_q1 hq_d, hilbertD2XY_succ_q2 hq_d1, hinner0, hinner1]
        simp only [manhattan]
        omega
      · rw [hq1] at hdm
        have he : d + 1 = 4 ^ k * 3 := by omega
        have hdiv1 : (d + 1) / 4 ^ k = 3 := by
          rw [he, Nat.mul_div_cancel_left _ hp4]
        have hmod1 : (d + 1) % 4 ^ k = 0 := by
          rw [he, Nat.mul_mod_right]
        have hinner1 : hilbertD2XY k (d + 1) = (0, 0) := by
          rw [hilbertD2XY_mod, hmod1, hilbertD2XY_zero]
        have hq_d : d / 4 ^ k % 4 = 2 := by rw [hq1]
        have hq_d1 : (d + 1) / 4 ^ k % 4 = 3 := by rw [hdiv1]
        rw [hilbertD2XY_succ_q2 hq_d, hilbertD2XY_succ_q3 hk64 hq_d1, hinner0, hinner1]
        simp only [manhattan]
        omega
      · rw [hq1] at hdm
        omega
    · have hmlt : d % 4 ^ k < 4 ^ k - 1 := by omega
      have hih := ih hk64 (d % 4 ^ k) (by omega)
      obtain ⟨hA1, hA2⟩ := hilbertD2XY_lt k hk64 (d % 4 ^ k)
      obtain ⟨hB1, hB2⟩ := hilbertD2XY_lt k hk64 (d % 4 ^ k + 1)
      have hinner0 : hilbertD2XY k d = hilbertD2XY k (d % 4 ^ k) := hilbertD2XY_mod k d
      rcases hcase with hq1 | hq1 | hq1 | hq1
      · rw [hq1] at hdm
        have he : d + 1 = (d % 4 ^ k + 1) + 4 ^ k * 0 := by omega
        have hdiv1 : (d + 1) / 4 ^ k = 0 := by
          rw [he, Nat.add_mul_div_left _ _ hp4, Nat.div_eq_of_lt (by omega)]
        have hmod1 : (d + 1) % 4 ^ k = d % 4 ^ k + 1 := by
          rw [he, Nat.add_mul_mod_self_left, Nat.mod_eq_of_lt (by omega)]
        have hinner1 : hilbertD2XY k (d + 1) = hilbertD2XY k (d % 4 ^ k + 1) := by
          rw [hilbertD2XY_mod, hmod1]
        have hq_d : d / 4 ^ k % 4 = 0 := by rw [hq1]
        have hq_d1 : (d + 1) / 4 ^ k % 4 = 0 := by rw [hdiv1]
        rw [hilbertD2XY_succ_q0 hq_d, hilbertD2XY_succ_q0 hq_d1, hinner0, hinner1]
        simp only [manhattan] at hih ⊢
        omega
      · rw [hq1] at hdm
        have he : d + 1 = (d % 4 ^ k + 1) + 4 ^ k * 1 := by omega
        have hdiv1 : (d + 1) / 4 ^ k = 1 := by
          rw [he, Nat.add_mul_div_left _ _ hp4, Nat.div_eq_of_lt (by omega), Nat.zero_add]
        have hmod1 : (d + 1) % 4 ^ k = d % 4 ^ k + 1 := by
          rw [he, Nat.add_mul_mod_self_left, Nat.mod_eq_of_lt (by omega)]
        have hinner1 : hilbertD2XY k (d + 1) = hilbertD2XY k (d % 4 ^ k + 1) := by
          rw [hilbertD2XY_mod, hmod1]
        have hq_d : d / 4 ^ k % 4 = 1 := by rw [hq1]
        have hq_d1 : (d + 1) / 4 ^ k % 4 = 1 := by rw [hdiv1]
        rw [hilbertD2XY_succ_q1 hq_d, hilbertD2XY_succ_q1 hq_d1, hinner0, hinner1]
        simp only [manhattan] at hih ⊢
        omega
      · rw [hq1] at hdm
        have he : d + 1 = (d % 4 ^ k + 1) + 4 ^ k * 2 := by omega
        have hdiv1 : (d + 1) / 4 ^ k = 2 := by
          rw [he, Nat.add_mul_div_left _ _ hp4, Nat.div_eq_of_lt (by omega), Nat.zero_add]
        have hmod1 : (d + 1) % 4 ^ k = d % 4 ^ k + 1 := by
          rw [he, Nat.add_mul_mod_self_left, Nat.mod_eq_of_lt (by omega)]
        have hinner1 : hilbertD2XY k (d + 1) = hilbertD2XY k (d % 4 ^ k + 1) := by
          rw [hilbertD2XY_mod, hmod1]
        have hq_d : d / 4 ^ k % 4 = 2 := by rw [hq1]
        have hq_d1 : (d + 1) / 4 ^ k % 4 = 2 := by rw [hdiv1]
        rw [hilbertD2XY_succ_q2 hq_d, hilbertD2XY_succ_q2 hq_d1, hinner0, hinner1]
        simp only [manhattan] at hih ⊢
        omega
      · rw [hq1] at hdm
        have he : d + 1 = (d % 4 ^ k + 1) + 4 ^ k * 3 := by omega
        have hdiv1 : (d + 1) / 4 ^ k = 3 := by
          rw [he, Nat.add_mul_div_left _ _ hp4, Nat.div_eq_of_lt (by omega), Nat.zero_add]
        have hmod1 : (d + 1) % 4 ^ k = d % 4 ^ k + 1 := by
          rw [he, Nat.add_mul_mod_self_left, Nat.mod_eq_of_lt (by omega)]
        have hinner1 : hilbertD2XY k (d + 1) = hilbertD2XY k (d % 4 ^ k + 1) := by
          rw [hilbertD2XY_mod, hmod1]
        have hq_d : d / 4 ^ k % 4 = 3 := by rw [hq1]
        have hq_d1 : (d + 1) / 4 ^ k % 4 = 3 := by rw [hdiv1]
        rw [hilbertD2XY_succ_q3 hk64 hq_d, hilbertD2XY_succ_q3 hk64 hq_d1, hinner0, hinner1]
        simp only [manhattan] at hih ⊢
        omega

lemma two_pow_mul_self (k : Nat) : 2 ^ k * 2 ^ k = 4 ^ k := by
  rw [← pow_add]
  have h4 : (4:Nat) = 2 ^ 2 := by norm_num
  rw [h4, ← pow_mul]
  congr 1
  omega

/-- C1: for every power-of-two grid side `n` (every `n` representable as `2 ^ k`
with `k ≤ 64`, which covers all 64-bit `usize` values) and every distance
`d < n * n`, `convert_2d_to_1d` applied to the pair returned by
`convert_1d_to_2d d n` returns `d`: the two operations are exact inverses on
valid distances. -/
theorem C1_roundtrip_exact_inverse (n k d : Nat) (hn : n = 2 ^ k) (hk : k ≤ 64)
    (hd : d < n * n) :
    ∃ p : Nat × Nat, convert_1d_to_2d d n = some p ∧ convert_2d_to_1d p.1 p.2 n = some d := by
  subst hn
  have h4 := two_pow_mul_self k
  refine ⟨hilbertD2XY k d, convert_1d_eq k d, ?_⟩
  rw [convert_2d_eq k _ _, hilbert_roundtrip k hk d, Nat.mod_eq_of_lt (by omega)]

/-- Witness for C1 at `n = 4`, `d = 7`. -/
theorem C1_roundtrip_exact_inverse_witness :
    ∃ p : Nat × Nat, convert_1d_to_2d 7 4 = some p ∧ convert_2d_to_1d p.1 p.2 4 = some 7 :=
  C1_roundtrip_exact_inverse 4 2 7 (by norm_num) (by norm_num) (by norm_num)

/-- C2: for every power-of-two grid side `n = 2 ^ k` (`k ≤ 64` covers all
`usize` values), `d ↦ convert_1d_to_2d d n` restricted to `d < n * n` is
injective, lands inside the grid, and hits every grid cell: it is a
permutation of the grid cells. -/
theorem C2_bijection_on_grid (n k : Nat) (hn : n = 2 ^ k) (hk : k ≤ 64) :
    (∀ d1 < n * n, ∀ d2 < n * n,
        convert_1d_to_2d d1 n = convert_1d_to_2d d2 n → d1 = d2) ∧
    (∀ d < n * n, ∃ x y, x < n ∧ y < n ∧ convert_1d_to_2d d n = some (x, y)) ∧
    (∀ x < n, ∀ y < n, ∃ d < n * n, convert_1d_to_2d d n = some (x, y)) := by
  subst hn
  have h4 := two_pow_mul_self k
  have hinj : ∀ d1 < 4 ^ k, ∀ d2 < 4 ^ k,
      hilbertD2XY k d1 = hilbertD2XY k d2 → d1 = d2 := by
    intro d1 h1 d2 h2 heq
    have e1 := hilbert_roundtrip k hk d1
    have e2 := hilbert_roundtrip k hk d2
    rw [heq] at e1
    rw [e2] at e1
    rw [Nat.mod_eq_of_lt h2, Nat.mod_eq_of_lt h1] at e1
    omega
  refine ⟨?_, ?_, ?_⟩
  · intro d1 h1 d2 h2 heq
    rw [convert_1d_eq, convert_1d_eq] at heq
    exact hinj d1 (by omega) d2 (by omega) (Option.some.inj heq)
  · intro d hd
    obtain ⟨hx, hy⟩ := hilbertD2XY_lt k hk d
    exact ⟨(hilbertD2XY k d).1, (hilbertD2XY k d).2, hx, hy, by rw [convert_1d_eq]⟩
  · intro x hx y hy
    have hsurj := @Finset.surj_on_of_inj_on_of_card_le Nat (Nat × Nat)
      (Finset.range (4 ^ k)) (Finset.range (2 ^ k) ×ˢ Finset.range (2 ^ k))
      (fun d _ => hilbertD2XY k d)
      (by
        intro a ha
        obtain ⟨h1, h2⟩ := hilbertD2XY_lt k hk a
        rw [Finset.mem_product, Finset.mem_range, Finset.mem_range]
        exact ⟨h1, h2⟩)
      (by
        intro a1 a2 ha1 ha2 heq
        rw [Finset.mem_range] at ha1 ha2
        exact hinj a1 ha1 a2 ha2 heq)
      (by
        rw [Finset.card_product, Finset.card_range, Finset.card_range]
        omega)
    obtain ⟨d, hdmem, heq⟩ := hsurj (x, y)
      (by rw [Finset.mem_product, Finset.mem_range, Finset.mem_range]; exact ⟨hx, hy⟩)
    have heq2 : (x, y) = hilbertD2XY k d := heq
    rw [Finset.mem_range] at hdmem
    exact ⟨d, by omega, by rw [convert_1d_eq, ← heq2]⟩

/-- Witness for C2 at `n = 2`. -/
theorem C2_bijection_on_grid_witness :
    (∀ d1 < 2 * 2, ∀ d2 < 2 * 2,
        convert_1d_to_2d d1 2 = convert_1d_to_2d d2 2 → d1 = d2) ∧
    (∀ d < 2 * 2, ∃ x y, x < 2 ∧ y < 2 ∧ convert_1d_to_2d d 2 = some (x, y)) ∧
    (∀ x < 2, ∀ y < 2, ∃ d < 2 * 2, convert_1d_to_2d d 2 = some (x, y)) :=
  C2_bijection_on_grid 2 1 (by norm_num) (by norm_num)

/-- C3: for every power-of-two grid side `n = 2 ^ k` (`k ≤ 64` covers all
`usize` values) and consecutive distances `d` and `d + 1` below `n * n`, the
cells returned by `convert_1d_to_2d` are at Manhattan distance exactly 1:
consecutive distances map to edge-adjacent cells. -/
theorem C3_consecutive_adjacent (n k d : Nat) (hn : n = 2 ^ k) (hk : k ≤ 64)
    (hd : d + 1 < n * n) :
    ∃ p q : Nat × Nat, convert_1d_to_2d d n = some p ∧
      convert_1d_to_2d (d + 1) n = some q ∧ manhattan p q = 1 := by
  subst hn
  have h4 := two_pow_mul_self k
  exact ⟨hilbertD2XY k d, hilbertD2XY k (d + 1), convert_1d_eq k d,
    convert_1d_eq k (d + 1), hilbert_locality k hk d (by omega)⟩

/-- Witness for C3 at `n = 4`, `d = 5`. -/
theorem C3_consecutive_adjacent_witness :
    ∃ p q : Nat × Nat, convert_1d_to_2d 5 4 = some p ∧
      convert_1d_to_2d 6 4 = some q ∧ manhattan p q = 1 :=
  C3_consecutive_adjacent 4 2 5 (by norm_num) (by norm_num) (by norm_num)

/-- C4: calling either operation with `n = 3` (not a power of two) fails the
eager assertion at the head of the function and aborts (modelled as `none`)
instead of returning a value. -/
theorem C4_assert_rejects_n3 :
    (∀ d, convert_1d_to_2d d 3 = none) ∧ (∀ x y, convert_2d_to_1d x y 3 = none) := by
  have h3 : pow2Assert 3 = false := by decide
  constructor
  · intro d
    unfold convert_1d_to_2d
    rw [h3]
    rfl
  · intro x y
    unfold convert_2d_to_1d
    rw [h3]
    rfl

/-- C5 counterexample: the claimed reference value `d = 1 → (0, 1)` is wrong
for this code: `convert_1d_to_2d 1 4` returns `(1, 0)`. -/
theorem C5_counterexample_d1 :
    convert_1d_to_2d 1 4 = some (1, 0) ∧ convert_1d_to_2d 1 4 ≠ some (0, 1) := by
  have h : convert_1d_to_2d 1 4 = some (hilbertD2XY 2 1) := by
    rw [show (4:Nat) = 2 ^ 2 by norm_num]
    exact convert_1d_eq 2 1
  rw [h]
  constructor
  · decide
  · decide

/-- C5 (amended): under this algorithm's orientation the n = 4 reference
values are `d = 0 → (0, 0)`, `d = 1 → (1, 0)`, `d = 2 → (1, 1)`,
`d = 3 → (0, 1)`, and `convert_1d_to_2d (4 * 4 - 1) 4` lands inside the grid
(both components at most 3). -/
theorem C5_reference_table :
    convert_1d_to_2d 0 4 = some (0, 0) ∧ convert_1d_to_2d 1 4 = some (1, 0) ∧
    convert_1d_to_2d 2 4 = some (1, 1) ∧ convert_1d_to_2d 3 4 = some (0, 1) ∧
    ∃ x y, convert_1d_to_2d (4 * 4 - 1) 4 = some (x, y) ∧ x ≤ 3 ∧ y ≤ 3 := by
  have h : ∀ d, convert_1d_to_2d d 4 = some (hilbertD2XY 2 d) := by
    intro d
    rw [show (4:Nat) = 2 ^ 2 by norm_num]
    exact convert_1d_eq 2 d
  refine ⟨?_, ?_, ?_, ?_, 3, 0, ?_, by norm_num, by norm_num⟩ <;> rw [h] <;> decide

/-- C6: for every power-of-two `n = 2 ^ k` (including `n = 1`),
`convert_1d_to_2d 0 n` returns `(0, 0)` and `convert_2d_to_1d 0 0 n`
returns `0`; for `n = 1` the loop body never executes and the trivial mapping
is returned for any `d`, `x`, `y`. -/
theorem C6_curve_starts_at_origin (k : Nat) :
    convert_1d_to_2d 0 (2 ^ k) = some (0, 0) ∧
    convert_2d_to_1d 0 0 (2 ^ k) = some 0 ∧
    (∀ d, convert_1d_to_2d d 1 = some (0, 0)) ∧
    (∀ x y, convert_2d_to_1d x y 1 = some 0) := by
  refine ⟨?_, ?_, ?_, ?_⟩
  · rw [convert_1d_eq k 0, hilbertD2XY_zero]
  · rw [convert_2d_eq k 0 0, hilbertXY2D_zero]
  · intro d
    have h1 : (1:Nat) = 2 ^ 0 := by norm_num
    rw [h1, convert_1d_eq 0 d]
    rfl
  · intro x y
    have h1 : (1:Nat) = 2 ^ 0 := by norm_num
    rw [h1, convert_2d_eq 0 x y]
    rfl

/-- C7: `convert_2d_to_1d` performs no bounds check on `x` and `y`: for every
power-of-two `n = 2 ^ k` and arbitrary `x`, `y` (including out-of-range ones)
it returns a value, and a `none` result can only come from the power-of-two
assertion on `n` failing. -/
theorem C7_no_bounds_check (k x y : Nat) :
    (∃ v, convert_2d_to_1d x y (2 ^ k) = some v) ∧
    (∀ n x2 y2, convert_2d_to_1d x2 y2 n = none → pow2Assert n = false) := by
  constructor
  · exact ⟨hilbertXY2D k x y, convert_2d_eq k x y⟩
  · intro n x2 y2 h
    cases hb : pow2Assert n
    · rfl
    · unfold convert_2d_to_1d at h
      rw [hb] at h
      simp at h

/-- C8: both operations are total for every power-of-two `n = 2 ^ k`: the
doubling loop of `convert_1d_to_2d` and the halving loop of `convert_2d_to_1d`
terminate after exactly `k` iterations — their results equal the structurally
recursive functions `hilbertD2XY k` and `hilbertXY2D k`, which recurse once
per bit of `n` — and each call returns a value. -/
theorem C8_total_in_log_steps (k d x y : Nat) :
    convert_1d_to_2d d (2 ^ k) = some (hilbertD2XY k d) ∧
    convert_2d_to_1d x y (2 ^ k) = some (hilbertXY2D k x y) :=
  ⟨convert_1d_eq k d, convert_2d_eq k x y⟩

/-- C9: for every power-of-two `n = 2 ^ k` and arbitrary `x`, `y` (including
out-of-range coordinates), `convert_2d_to_1d x y n` returns a value strictly
below `n * n`: each loop step adds at most `3 * s ^ 2` and the geometric sum
is `n ^ 2 - 1`. -/
theorem C9_result_lt_n_squared (k x y : Nat) :
    ∃ v, convert_2d_to_1d x y (2 ^ k) = some v ∧ v < 2 ^ k * 2 ^ k := by
  refine ⟨hilbertXY2D k x y, convert_2d_eq k x y, ?_⟩
  have h := hilbertXY2D_lt k x y
  have h4 := two_pow_mul_self k
  omega

/-- C10: the assertion `(n & (n - 1)) == 0` with wrapping subtraction does not
reject `n = 0`: `convert_1d_to_2d d 0` returns `(0, 0)` for every `d` and
`convert_2d_to_1d x y 0` returns `0` for every `x`, `y`, because neither loop
body executes. -/
theorem C10_zero_not_rejected :
    (∀ d, convert_1d_to_2d d 0 = some (0, 0)) ∧
    (∀ x y, convert_2d_to_1d x y 0 = some 0) := by
  have h0 : pow2Assert 0 = true := by decide
  constructor
  · intro d
    unfold convert_1d_to_2d
    rw [h0, if_pos rfl, d2xyLoop_done (by omega)]
  · intro x y
    unfold convert_2d_to_1d
    rw [h0, if_pos rfl, show (0:Nat) / 2 = 0 from rfl, xy2dLoop_zero]

end HilbertCurve
